import Mathlib

/-!
Shallow embedding of the enniolimpiadi web client (frontend/stores.ts,
frontend/api.ts, frontend/App.tsx), of the SQL schema constraints, and of
the backend engine components that the schema and the spec describe.
All mutable-store operations are embedded as pure state-transition
functions; asynchronous side calls (refetches, localStorage writes, modal
prompts) are recorded as an ordered list of emitted effects.
-/

namespace Ennio

/-- The `Page` enum from stores.ts. -/
inductive Page where
  | olympiad | events | players | teams
  deriving DecidableEq, Repr

/-- The `Modal` enum from stores.ts. -/
inductive Modal where
  | noModal | info | pinInput | createOlympiad | createEvent
  deriving DecidableEq, Repr

/-- The `OlympiadSummary` from api.ts: id, name, version. -/
structure OlympiadSummary where
  id : Int
  name : String
  version : Int
  deriving DecidableEq, Repr

/-- A list entry of `players` / `teams` / `events` as accessed by
`renameEntity` / `deleteEntity` in stores.ts: `{ id, name, version }`. -/
structure EntityItem where
  id : Int
  name : String
  version : Int
  deriving DecidableEq, Repr

/-- The slice of the zustand store state touched by the embedded
operations of stores.ts. -/
structure ClientState where
  olympiads : List OlympiadSummary
  selectedOlympiad : Option OlympiadSummary
  players : List EntityItem
  teams : List EntityItem
  events : List EntityItem
  page : Page
  activeModal : Modal
  infoModalTitle : String
  infoModalMessage : String
  pinInputModalErrorMessage : String
  deriving DecidableEq, Repr

/-- Side calls issued by the store operations, in program order:
data refetches, localStorage PIN removal, and re-opening the PIN
input modal (the user re-prompt). -/
inductive Effect where
  | fetchOlympiads
  | fetchPlayers
  | fetchTeams
  | fetchEvents
  | removePin (olympiadId : Int)
  | showPinInput (olympiadId : Int)
  deriving DecidableEq, Repr

/-- An HTTP response as the handlers consume it: `ok`, `status`,
the `detail` field of an error payload, and the `version` field of a
success payload. -/
structure Resp where
  ok : Bool
  status : Int
  detail : Option String
  version : Int
  deriving DecidableEq, Repr

/-- The `closeModal` store action from stores.ts. -/
def closeModal (s : ClientState) : ClientState :=
  { s with activeModal := .noModal, infoModalTitle := "", infoModalMessage := "",
           pinInputModalErrorMessage := "" }

/-- The `showInfoModal` store action from stores.ts. -/
def showInfoModal (title message : String) (s : ClientState) : ClientState :=
  { s with activeModal := .info, infoModalTitle := title, infoModalMessage := message }

/-- State part of `showPinInputModal` from stores.ts (the callback is
recorded as a `Effect.showPinInput` emission at the call sites). -/
def showPinInputModalState (s : ClientState) : ClientState :=
  { s with activeModal := .pinInput }

/-- The `EntityType` from stores.ts: the entities handled by the unified
rename/delete functions. -/
inductive EntityType where
  | player | team | event
  deriving DecidableEq, Repr

/-- The `entityConfigs[t].notFoundLabel` from stores.ts. -/
def notFoundLabel : EntityType → String
  | .player => "Giocatore non trovato"
  | .team => "Squadra non trovata"
  | .event => "Evento non trovato"

/-- The `entityConfigs[t].renameErrorLabel` from stores.ts. -/
def renameErrorLabel : EntityType → String
  | .player => "Impossibile rinominare il giocatore"
  | .team => "Impossibile rinominare la squadra"
  | .event => "Impossibile rinominare l\x27evento"

/-- The `entityConfigs[t].deleteErrorLabel` from stores.ts. -/
def deleteErrorLabel : EntityType → String
  | .player => "Impossibile eliminare il giocatore"
  | .team => "Impossibile eliminare la squadra"
  | .event => "Impossibile eliminare l\x27evento"

/-- The `entityConfigs[t].conflictLabel` from stores.ts. -/
def conflictLabel : EntityType → String
  | .player => "Questo giocatore è stato modificato da un altro admin. La pagina verrà ricaricata."
  | .team => "Questa squadra è stata modificata da un altro admin. La pagina verrà ricaricata."
  | .event => "Questo evento è stato modificato da un altro admin. La pagina verrà ricaricata."

/-- The `entityConfigs[t].fetchFn` from stores.ts, as the emitted effect. -/
def fetchEffect : EntityType → Effect
  | .player => .fetchPlayers
  | .team => .fetchTeams
  | .event => .fetchEvents

/-- The `entityConfigs[t].stateKey` read access: the store list the unified
handlers operate on. -/
def getList (t : EntityType) (s : ClientState) : List EntityItem :=
  match t with
  | .player => s.players
  | .team => s.teams
  | .event => s.events

/-- The `entityConfigs[t].stateKey` write access. -/
def setList (t : EntityType) (l : List EntityItem) (s : ClientState) : ClientState :=
  match t with
  | .player => { s with players := l }
  | .team => { s with teams := l }
  | .event => { s with events := l }

/-! ## Store mutation handlers (stores.ts)

Each handler embeds the response-dispatch of the corresponding async
function in stores.ts: it consumes the HTTP response and the current
store state and produces the new state plus the ordered list of side
calls (refetches, localStorage PIN removal, PIN re-prompt). -/

/-- The `renameOlympiad` from stores.ts (response dispatch). -/
def renameOlympiadHandler (olympiadId : Int) (newName : String) (res : Resp)
    (s : ClientState) : ClientState × List Effect :=
  if res.ok then
    let updated := s.olympiads.map fun o =>
      if o.id = olympiadId then { o with name := newName, version := res.version } else o
    let s1 := { s with olympiads := updated }
    let s2 :=
      match s1.selectedOlympiad with
      | some sel =>
          if sel.id = olympiadId then
            { s1 with selectedOlympiad := some { sel with name := newName, version := res.version } }
          else s1
      | none => s1
    (closeModal s2, [])
  else if res.status = 404 then
    let s1 :=
      if s.selectedOlympiad.map (·.id) = some olympiadId then
        { s with selectedOlympiad := none }
      else s
    let s2 := { s1 with olympiads := s1.olympiads.filter (fun o => o.id ≠ olympiadId) }
    (showInfoModal "Olimpiade non trovata"
      "Questa olimpiade è stata eliminata da un altro admin. La pagina verrà ricaricata con le informazioni aggiornate"
      s2, [.fetchOlympiads])
  else if res.status = 401 then
    let s1 := { s with pinInputModalErrorMessage := "PIN non valido" }
    (showPinInputModalState s1, [.removePin olympiadId, .showPinInput olympiadId])
  else if res.status = 412 then
    (showInfoModal "Conflitto"
      "Questa olimpiade è stata modificata da un altro admin. La pagina verrà ricaricata con le informazioni aggiornate"
      s, [.fetchOlympiads])
  else
    (showInfoModal "Errore" (res.detail.getD "Impossibile rinominare l\x27olimpiade") s, [])

/-- The `deleteOlympiad` from stores.ts (response dispatch). -/
def deleteOlympiadHandler (olympiadId : Int) (res : Resp)
    (s : ClientState) : ClientState × List Effect :=
  if res.ok || res.status = 204 then
    let s1 := { s with olympiads := s.olympiads.filter (fun o => o.id ≠ olympiadId) }
    let s2 :=
      if s1.selectedOlympiad.map (·.id) = some olympiadId then
        { s1 with selectedOlympiad := none }
      else s1
    (closeModal s2, [.removePin olympiadId])
  else if res.status = 404 then
    let s1 :=
      if s.selectedOlympiad.map (·.id) = some olympiadId then
        { s with selectedOlympiad := none }
      else s
    let s2 := { s1 with olympiads := s1.olympiads.filter (fun o => o.id ≠ olympiadId) }
    (showInfoModal "Olimpiade non trovata"
      "Questa olimpiade è stata già eliminata da un altro admin. La pagina verrà ricaricata con le informazioni aggiornate"
      (closeModal s2), [.fetchOlympiads])
  else if res.status = 401 then
    let s1 := { s with pinInputModalErrorMessage := "PIN non valido" }
    (showPinInputModalState s1, [.removePin olympiadId, .showPinInput olympiadId])
  else if res.status = 412 then
    (showInfoModal "Conflitto"
      "Questa olimpiade è stata modificata da un altro admin. La pagina verrà ricaricata con le informazioni aggiornate"
      s, [.fetchOlympiads])
  else
    (showInfoModal "Errore" (res.detail.getD "Impossibile eliminare l\x27olimpiade") s, [])

/-- The `renameEntity` from stores.ts (response dispatch); the selected
olympiad id is a parameter (the source throws when none is selected). -/
def renameEntityHandler (t : EntityType) (selectedOlympiadId : Int) (entityId : Int)
    (newName : String) (res : Resp) (s : ClientState) : ClientState × List Effect :=
  if res.ok then
    let updated := (getList t s).map fun item =>
      if item.id = entityId then { item with name := newName, version := res.version } else item
    (closeModal (setList t updated s), [])
  else if res.status = 404 then
    (showInfoModal "Errore" (notFoundLabel t) s, [fetchEffect t])
  else if res.status = 401 then
    let s1 := { s with pinInputModalErrorMessage := "PIN non valido" }
    (showPinInputModalState s1, [.removePin selectedOlympiadId, .showPinInput selectedOlympiadId])
  else if res.status = 412 then
    (showInfoModal "Conflitto" (conflictLabel t) s, [fetchEffect t])
  else
    (showInfoModal "Errore" (res.detail.getD (renameErrorLabel t)) s, [])

/-- The `deleteEntity` from stores.ts (response dispatch). Note: unlike the
other three handlers it has no dedicated 412 branch. -/
def deleteEntityHandler (t : EntityType) (selectedOlympiadId : Int) (entityId : Int)
    (res : Resp) (s : ClientState) : ClientState × List Effect :=
  if res.ok || res.status = 204 then
    let updated := (getList t s).filter (fun item => item.id ≠ entityId)
    (closeModal (setList t updated s), [])
  else if res.status = 404 then
    (showInfoModal "Errore" (notFoundLabel t) s, [fetchEffect t])
  else if res.status = 401 then
    let s1 := { s with pinInputModalErrorMessage := "PIN non valido" }
    (showPinInputModalState s1, [.removePin selectedOlympiadId, .showPinInput selectedOlympiadId])
  else
    (showInfoModal "Errore" (res.detail.getD (deleteErrorLabel t)) s, [])

/-- The `verifyPin` from stores.ts: returns the boolean result together with
the new store state and the emitted effects. -/
def verifyPinHandler (res : Resp) (s : ClientState) : Bool × ClientState × List Effect :=
  if res.ok then
    (true, s, [])
  else if res.status = 404 then
    let s1 := { s with selectedOlympiad := none, page := .olympiad }
    let s2 := closeModal s1
    let s3 := showInfoModal "Olimpiade non trovata" "Questa olimpiade è stata eliminata." s2
    (false, s3, [.fetchOlympiads])
  else
    (false, s, [])

/-! ## API layer (frontend/api.ts)

Each `api.*` function is embedded as a pure request builder. JSON bodies
are represented as ordered field lists; a field whose TypeScript value is
`undefined` is dropped, as `JSON.stringify` does. -/

/-- An HTTP request as built by the `api` object. -/
structure Request where
  method : String
  url : String
  headers : List (String × String)
  body : List (String × String)
  deriving DecidableEq, Repr

/-- The `If-Match` header value of api.ts: the template literal
`"${version}"`, i.e. the version between double quotes. -/
def quotedVersion (version : Int) : String :=
  "\"" ++ toString version ++ "\""

/-- The `If-Match` value when the `version` argument was left out at the
call site (JS `undefined` rendered by the template literal). -/
def quotedVersionOpt : Option Int → String
  | some v => quotedVersion v
  | none => "\"undefined\""

namespace Api

/-- The `api.createOlympiad` from api.ts: POST with name and pin in the body,
no PIN header and no If-Match header. -/
def createOlympiad (name pin : String) : Request :=
  { method := "POST", url := "/olympiads"
    headers := [("Content-Type", "application/json")]
    body := [("name", name), ("pin", pin)] }

/-- The `api.renameOlympiad` from api.ts. -/
def renameOlympiad (olympiadId : Int) (name pin : String) (version : Int) : Request :=
  { method := "PUT", url := "/olympiads/" ++ toString olympiadId
    headers := [("Content-Type", "application/json"),
                ("X-Olympiad-PIN", pin), ("If-Match", quotedVersion version)]
    body := [("name", name)] }

/-- The `api.deleteOlympiad` from api.ts. -/
def deleteOlympiad (olympiadId : Int) (pin : String) (version : Int) : Request :=
  { method := "DELETE", url := "/olympiads/" ++ toString olympiadId
    headers := [("X-Olympiad-PIN", pin), ("If-Match", quotedVersion version)]
    body := [] }

/-- The `api.verifyPin` from api.ts. -/
def verifyPin (olympiadId : Int) (pin : String) : Request :=
  { method := "POST", url := "/olympiads/" ++ toString olympiadId ++ "/verify-pin"
    headers := [("Content-Type", "application/json")]
    body := [("pin", pin)] }

/-- The `api.createPlayer` from api.ts: PIN header, no If-Match header. -/
def createPlayer (olympiadId : Int) (name pin : String) : Request :=
  { method := "POST", url := "/olympiads/" ++ toString olympiadId ++ "/players"
    headers := [("Content-Type", "application/json"), ("X-Olympiad-PIN", pin)]
    body := [("name", name)] }

/-- The `api.renamePlayer` from api.ts. -/
def renamePlayer (olympiadId playerId : Int) (name pin : String) (version : Int) : Request :=
  { method := "PUT"
    url := "/olympiads/" ++ toString olympiadId ++ "/players/" ++ toString playerId
    headers := [("Content-Type", "application/json"),
                ("X-Olympiad-PIN", pin), ("If-Match", quotedVersion version)]
    body := [("name", name)] }

/-- The `api.deletePlayer` from api.ts. The `version` parameter is typed
`number` in TS; the `deleteEntity` call site omits it, so it is embedded
as an `Option`, with `none` standing for JS `undefined`. -/
def deletePlayer (olympiadId playerId : Int) (pin : String) (version : Option Int) : Request :=
  { method := "DELETE"
    url := "/olympiads/" ++ toString olympiadId ++ "/players/" ++ toString playerId
    headers := [("X-Olympiad-PIN", pin), ("If-Match", quotedVersionOpt version)]
    body := [] }

/-- The `api.createTeam` from api.ts (with the default empty `playerIds`). -/
def createTeam (olympiadId : Int) (name pin : String) : Request :=
  { method := "POST", url := "/olympiads/" ++ toString olympiadId ++ "/teams"
    headers := [("Content-Type", "application/json"), ("X-Olympiad-PIN", pin)]
    body := [("name", name), ("player_ids", "[]")] }

/-- The `api.renameTeam` from api.ts (default empty `playerIds`). -/
def renameTeam (olympiadId teamId : Int) (name pin : String) (version : Int) : Request :=
  { method := "PUT"
    url := "/olympiads/" ++ toString olympiadId ++ "/teams/" ++ toString teamId
    headers := [("Content-Type", "application/json"),
                ("X-Olympiad-PIN", pin), ("If-Match", quotedVersion version)]
    body := [("name", name), ("player_ids", "[]")] }

/-- The `api.deleteTeam` from api.ts (`version` as for `deletePlayer`). -/
def deleteTeam (olympiadId teamId : Int) (pin : String) (version : Option Int) : Request :=
  { method := "DELETE"
    url := "/olympiads/" ++ toString olympiadId ++ "/teams/" ++ toString teamId
    headers := [("X-Olympiad-PIN", pin), ("If-Match", quotedVersionOpt version)]
    body := [] }

/-- The `api.updateEvent` from api.ts; the optional `status` field is dropped
from the JSON body when `undefined`. -/
def updateEvent (olympiadId eventId : Int) (pin name : String) (version : Int)
    (status : Option String) : Request :=
  { method := "PUT"
    url := "/olympiads/" ++ toString olympiadId ++ "/events/" ++ toString eventId
    headers := [("Content-Type", "application/json"),
                ("X-Olympiad-PIN", pin), ("If-Match", quotedVersion version)]
    body := [("name", name)] ++ (match status with
      | some st => [("status", st)]
      | none => []) }

/-- The `api.deleteEvent` from api.ts (`version` as for `deletePlayer`). -/
def deleteEvent (olympiadId eventId : Int) (pin : String) (version : Option Int) : Request :=
  { method := "DELETE"
    url := "/olympiads/" ++ toString olympiadId ++ "/events/" ++ toString eventId
    headers := [("X-Olympiad-PIN", pin), ("If-Match", quotedVersionOpt version)]
    body := [] }

end Api

/-- The `entityConfigs[t].renameApiFn` from stores.ts: the rename request
each entity type issues (the event case routes through `updateEvent`
with no `status`). -/
def renameApiFn (t : EntityType) (olympiadId entityId : Int) (newName pin : String)
    (version : Int) : Request :=
  match t with
  | .player => Api.renamePlayer olympiadId entityId newName pin version
  | .team => Api.renameTeam olympiadId entityId newName pin version
  | .event => Api.updateEvent olympiadId entityId pin newName version none

/-- The `entityConfigs[t].deleteApiFn` from stores.ts: it takes only
`(olympiadId, entityId, pin)` and forwards no version argument, so the
underlying api delete receives `undefined` for `version`. -/
def deleteApiFn (t : EntityType) (olympiadId entityId : Int) (pin : String) : Request :=
  match t with
  | .player => Api.deletePlayer olympiadId entityId pin none
  | .team => Api.deleteTeam olympiadId entityId pin none
  | .event => Api.deleteEvent olympiadId entityId pin none

/-! ## CreateEventModal (App.tsx) -/

/-- The `StageConfig` from api.ts. -/
structure StageConfig where
  kind : String
  advance_count : Option Int
  deriving DecidableEq, Repr

/-- The `score_kind` values from api.ts. -/
inductive ScoreKind where
  | points | outcome
  deriving DecidableEq, Repr

/-- The component state of `CreateEventModal` read by `handleSubmit`:
its hooks plus the store fields it captures. -/
structure EventModalState where
  scoreKind : ScoreKind
  stages : List StageConfig
  selectedTeamIds : List Int
  error : Option String
  createEventName : String
  hasCallback : Bool
  deriving DecidableEq, Repr

/-- Outcome of `CreateEventModal.handleSubmit`: the component state it
leaves behind, whether `closeModal()` was called, and the callback
invocation (which is what issues the create request) if any. -/
structure EventSubmitResult where
  modalState : EventModalState
  modalClosed : Bool
  request : Option (String × ScoreKind × List StageConfig × List Int)
  deriving DecidableEq, Repr

/-- The `CreateEventModal.handleSubmit` from App.tsx. -/
def handleSubmitEvent (s : EventModalState) : EventSubmitResult :=
  let s1 := { s with error := none }
  if s1.selectedTeamIds.length < 2 then
    { modalState := { s1 with error := some "Seleziona almeno 2 partecipanti" }
      modalClosed := false
      request := none }
  else
    { modalState := { s1 with stages := [], selectedTeamIds := [], scoreKind := .outcome }
      modalClosed := true
      request :=
        if s.hasCallback then
          some (s.createEventName, s.scoreKind, s.stages, s.selectedTeamIds)
        else none }

/-! ## Olympiad PIN: generation, validation, schema checks -/

/-- JS `String.prototype.padStart`. -/
def padStart (s : String) (n : Nat) (c : Char) : String :=
  String.mk (List.replicate (n - s.length) c) ++ s

/-- Little-endian decimal digit characters of `n`, with fuel (one unit
per extracted digit; `n` units always suffice). -/
def natDigitsAux : Nat → Nat → List Char
  | 0, _ => []
  | fuel + 1, n =>
    if n = 0 then [] else Char.ofNat (48 + n % 10) :: natDigitsAux fuel (n / 10)

/-- JS `String(n)` for a non-negative integer: decimal rendering. -/
def natDecimalString (n : Nat) : String :=
  if n = 0 then "0" else String.mk (natDigitsAux n n).reverse

/-- The PIN generated by `CreateOlympiadModal` in App.tsx:
`String(Math.floor(Math.random() * 10000)).padStart(4, '0')`, with `n`
the drawn integer in `[0, 9999]`. -/
def genPin (n : Nat) : String :=
  padStart (natDecimalString n) 4 '0'

/-- The regex `/^\d{4}$/` used by `CreateOlympiadModal.handleSubmit`. -/
def isFourDigitPin (s : String) : Bool :=
  s.length = 4 && s.data.all (·.isDigit)

/-- The `CreateOlympiadModal.handleSubmit` from App.tsx: either an error
message with no request, or the create request. -/
def handleSubmitOlympiad (name pin : String) : Option Request × Option String :=
  if pin.length ≠ 4 || !(isFourDigitPin pin) then
    (none, some "Il PIN deve essere di 4 cifre")
  else
    (some (Api.createOlympiad name pin), none)

/-- The `olympiads.pin` CHECK of the first schema variant in the repository:
`CHECK(length(pin) <= 4)`. -/
def pinCheckLe4 (pin : String) : Bool :=
  pin.length ≤ 4

/-- The `olympiads.pin` CHECK of the second schema variant in the repository:
`CHECK (length(pin) = 4)`. -/
def pinCheckEq4 (pin : String) : Bool :=
  pin.length = 4

/-! ## BracketView.organizeMatchesByRound (App.tsx)

The source is a `while` loop doing backward BFS from the null-link root;
it is embedded with a fuel argument (one unit per loop iteration), the
main definition using the match-list length as units, which is proved sufficient
whenever the match ids are pairwise distinct. -/

/-- The `MatchTeamResponse` from api.ts. -/
structure MatchTeamResponse where
  id : Int
  name : String
  score : Option Int
  deriving DecidableEq, Repr

/-- Match status values from api.ts. -/
inductive MatchStatus where
  | pending | running | finished
  deriving DecidableEq, Repr

/-- The `MatchResponse` from api.ts. -/
structure MatchResponse where
  id : Int
  status : MatchStatus
  teams : List MatchTeamResponse
  next_match_id : Option Int
  deriving DecidableEq, Repr

instance : Inhabited MatchResponse := ⟨⟨0, .pending, [], none⟩⟩

/-- The inner loop body of `organizeMatchesByRound`: the list of matches
feeding into the current round, in current-round order
(the filter on `next_match_id === match.id` pushed per match). -/
def feeders (matchList round : List MatchResponse) : List MatchResponse :=
  (round.map fun mt => matchList.filter fun m => m.next_match_id = some mt.id).flatten

/-- The `while (currentRound.length > 0)` loop of
`organizeMatchesByRound`, with fuel; `rounds.unshift(currentRound)`
appears as appending previously-built rounds in front. -/
def bfsRounds (matchList : List MatchResponse) : Nat → List MatchResponse → List (List MatchResponse)
  | 0, _ => []
  | fuel + 1, currentRound =>
    if currentRound = [] then []
    else bfsRounds matchList fuel (feeders matchList currentRound) ++ [currentRound]

/-- The `organizeMatchesByRound` from App.tsx, with explicit fuel for the
backward-BFS loop. -/
def organizeMatchesByRoundFuel (fuel : Nat) (matchList : List MatchResponse) :
    List (List MatchResponse) :=
  if matchList = [] then []
  else
    match matchList.find? (fun m => m.next_match_id = none) with
    | none => [matchList]
    | some finalMatch => bfsRounds matchList fuel [finalMatch]

/-- The `organizeMatchesByRound` from App.tsx; as many loop iterations as
the list length are enough whenever match ids are pairwise distinct. -/
def organizeMatchesByRound (matchList : List MatchResponse) : List (List MatchResponse) :=
  organizeMatchesByRoundFuel matchList.length matchList

/-- The successive values of `currentRound` in the source loop:
`roundSeq ms root k` is the round after `k` backward steps. -/
def roundSeq (matchList : List MatchResponse) (root : MatchResponse) : Nat → List MatchResponse
  | 0 => [root]
  | k + 1 => feeders matchList (roundSeq matchList root k)

/-- The unique (under distinct ids) match a match's `next_match_id`
points to. -/
def nextMatch (matchList : List MatchResponse) (m : MatchResponse) : Option MatchResponse :=
  matchList.find? fun x => m.next_match_id = some x.id

/-- Iterated `next_match_id` chasing. -/
def nextIter (matchList : List MatchResponse) : Nat → MatchResponse → Option MatchResponse
  | 0, m => some m
  | n + 1, m =>
    match nextMatch matchList m with
    | none => none
    | some m' => nextIter matchList n m'

/-- Reachability: `m` reaches `t` by following `next_match_id` links
through members of the list. -/
inductive Reaches (matchList : List MatchResponse) : MatchResponse → MatchResponse → Prop
  | refl (m : MatchResponse) : Reaches matchList m m
  | step {m m' t : MatchResponse} :
      m.next_match_id = some m'.id → m' ∈ matchList →
      Reaches matchList m' t → Reaches matchList m t

/-- A match list with a duplicated id on which the backward BFS loops:
the second match feeds the root's id, which is also its own id. -/
def loopMatches : List MatchResponse :=
  [⟨1, .pending, [], none⟩, ⟨1, .pending, [], some 1⟩]

/-- Every match of the earlier round links to some match of the later
round: the relation between two consecutive rounds produced by the
backward BFS. -/
def roundsLinked (r1 r2 : List MatchResponse) : Prop :=
  ∀ m ∈ r1, ∃ m' ∈ r2, m.next_match_id = some m'.id

/-! ## Backend engine components absent from src/ -/

/-- Modelled from the spec: the Version Ledger of §4.3 lives in the
FastAPI backend (`main.py`), which is not part of the source tree; only
the schema (`version INTEGER NOT NULL DEFAULT 1`) is. One write with the
caller's expected version against the stored version: on mismatch the
write is aborted with no side effect, otherwise the stored version is
incremented by exactly 1. -/
def ledgerStep (stored expected : Nat) : Nat :=
  if expected = stored then stored + 1 else stored

/-- Modelled from the spec: stored version after a sequence of writes,
each carrying the expected version its caller observed. -/
def ledgerRun (init : Nat) (reqs : List Nat) : Nat :=
  reqs.foldl ledgerStep init

/-- Modelled from the spec: the versions assigned by the successful
writes of a request sequence, in order. -/
def assignedVersions (stored : Nat) : List Nat → List Nat
  | [] => []
  | e :: rest =>
    if e = stored then (stored + 1) :: assignedVersions (stored + 1) rest
    else assignedVersions stored rest

/-- A bracket match row as the Bracket Builder creates it
(`bracket_matches`: `match_id`, nullable `next_match_id`). -/
structure BracketMatch where
  id : Nat
  next_match_id : Option Nat
  deriving DecidableEq, Repr

/-- Modelled from the spec: `bracket_size = 2^⌈log2(N)⌉` of §4.1, the
smallest power of two ≥ the participant count. -/
def bracketSize (n : Nat) : Nat :=
  2 ^ Nat.clog 2 n

/-- Modelled from the spec: the single-elimination Bracket Builder of
§4.1 lives in the FastAPI backend (`main.py`), absent from the source
tree; only the `bracket_matches` schema is. The builder emits
`bracket_size − 1` matches in `log2(bracket_size)` rounds; here match
`i` (heap numbering, `1 ≤ i ≤ bracket_size − 1`) feeds match `i / 2`,
match `1` being the final with `next_match_id = null`. -/
def seMatches (n : Nat) : List BracketMatch :=
  (List.range' 1 (bracketSize n - 1)).map fun i =>
    { id := i, next_match_id := if i = 1 then none else some (i / 2) }

/-- Reachability: `m` reaches `t` by following bracket links through
the list. -/
inductive BReaches (l : List BracketMatch) : BracketMatch → BracketMatch → Prop
  | refl (m : BracketMatch) : BReaches l m m
  | step {m m' t : BracketMatch} :
      m.next_match_id = some m'.id → m' ∈ l →
      BReaches l m' t → BReaches l m t

/-! ## Shared helper facts -/

/-- A concrete store state used to instantiate witnesses. -/
def sampleState : ClientState :=
  { olympiads := [⟨7, "Enniolimpiadi", 3⟩]
    selectedOlympiad := some ⟨7, "Enniolimpiadi", 3⟩
    players := [⟨2, "Mario", 1⟩]
    teams := [⟨4, "Rossi", 1⟩]
    events := [⟨5, "Ping Pong", 2⟩]
    page := .players
    activeModal := .noModal
    infoModalTitle := ""
    infoModalMessage := ""
    pinInputModalErrorMessage := "" }

theorem getList_setList (t : EntityType) (l : List EntityItem) (s : ClientState) :
    getList t (setList t l s) = l := by
  cases t <;> rfl

theorem getList_closeModal (t : EntityType) (s : ClientState) :
    getList t (closeModal s) = getList t s := by
  cases t <;> rfl

theorem getList_showInfoModal (t : EntityType) (a b : String) (s : ClientState) :
    getList t (showInfoModal a b s) = getList t s := by
  cases t <;> rfl

/-- Claim C3: an event-creation submission with fewer than 2 selected
participants is rejected with the validation error "Seleziona almeno 2
partecipanti", issues no create request (the create callback is not
invoked), and leaves the modal open with the error shown. -/
theorem createEvent_rejects_fewer_than_two (s : EventModalState)
    (h : s.selectedTeamIds.length < 2) :
    handleSubmitEvent s =
      { modalState := { s with error := some "Seleziona almeno 2 partecipanti" }
        modalClosed := false
        request := none } := by
  simp [handleSubmitEvent, h]

/-- Witness for the previous theorem at a one-participant submission. -/
theorem createEvent_rejects_fewer_than_two_witness :
    handleSubmitEvent ⟨.points, [⟨"single_elimination", none⟩], [5], none, "torneo", true⟩ =
      { modalState := ⟨.points, [⟨"single_elimination", none⟩], [5],
                       some "Seleziona almeno 2 partecipanti", "torneo", true⟩
        modalClosed := false
        request := none } :=
  createEvent_rejects_fewer_than_two _ (by decide)

/-- Claim C8: `verifyPin` returns true exactly when the response is ok;
on a 404 it clears the selected olympiad, navigates to the olympiad
page, closes the open modal, shows the "Olimpiade non trovata" info
modal and refetches the olympiad list before returning false; any other
failure returns false with no state change and no effects. -/
theorem verifyPin_result_spec (res : Resp) (s : ClientState) :
    ((verifyPinHandler res s).1 = res.ok)
    ∧ (res.ok = true → verifyPinHandler res s = (true, s, []))
    ∧ (res.ok = false → res.status = 404 →
        verifyPinHandler res s =
          (false,
           showInfoModal "Olimpiade non trovata" "Questa olimpiade è stata eliminata."
             (closeModal { s with selectedOlympiad := none, page := .olympiad }),
           [.fetchOlympiads]))
    ∧ (res.ok = false → res.status ≠ 404 → verifyPinHandler res s = (false, s, [])) := by
  refine ⟨?_, ?_, ?_, ?_⟩
  · cases hok : res.ok
    · simp only [verifyPinHandler, hok, Bool.false_eq_true, if_false]
      split <;> rfl
    · simp [verifyPinHandler, hok]
  · intro hok; simp [verifyPinHandler, hok]
  · intro hok h404; simp [verifyPinHandler, hok, h404]
  · intro hok h404; simp [verifyPinHandler, hok, h404]

/-- Witness for the previous theorem: the 404 branch at a concrete
response and state. -/
theorem verifyPin_result_spec_witness :
    verifyPinHandler ⟨false, 404, none, 0⟩ sampleState =
      (false,
       showInfoModal "Olimpiade non trovata" "Questa olimpiade è stata eliminata."
         (closeModal { sampleState with selectedOlympiad := none, page := .olympiad }),
       [.fetchOlympiads]) :=
  (verifyPin_result_spec ⟨false, 404, none, 0⟩ sampleState).2.2.1 rfl rfl

/-- Claim C9: on a 401 response, every rename/delete handler removes the
cached PIN for the target olympiad before re-prompting: the emitted
effects are exactly the localStorage PIN removal followed by the PIN
input re-prompt, with the "PIN non valido" message set and the PIN
input modal active. -/
theorem unauthorized_removes_pin_before_reprompt
    (t : EntityType) (olympiadId selId entityId : Int) (newName : String)
    (res : Resp) (s : ClientState) (hok : res.ok = false) (h401 : res.status = 401) :
    ((renameOlympiadHandler olympiadId newName res s).2 =
        [.removePin olympiadId, .showPinInput olympiadId]
      ∧ (renameOlympiadHandler olympiadId newName res s).1.activeModal = .pinInput
      ∧ (renameOlympiadHandler olympiadId newName res s).1.pinInputModalErrorMessage =
          "PIN non valido")
    ∧ ((deleteOlympiadHandler olympiadId res s).2 =
        [.removePin olympiadId, .showPinInput olympiadId]
      ∧ (deleteOlympiadHandler olympiadId res s).1.activeModal = .pinInput
      ∧ (deleteOlympiadHandler olympiadId res s).1.pinInputModalErrorMessage =
          "PIN non valido")
    ∧ ((renameEntityHandler t selId entityId newName res s).2 =
        [.removePin selId, .showPinInput selId]
      ∧ (renameEntityHandler t selId entityId newName res s).1.activeModal = .pinInput
      ∧ (renameEntityHandler t selId entityId newName res s).1.pinInputModalErrorMessage =
          "PIN non valido")
    ∧ ((deleteEntityHandler t selId entityId res s).2 =
        [.removePin selId, .showPinInput selId]
      ∧ (deleteEntityHandler t selId entityId res s).1.activeModal = .pinInput
      ∧ (deleteEntityHandler t selId entityId res s).1.pinInputModalErrorMessage =
          "PIN non valido") := by
  simp [renameOlympiadHandler, deleteOlympiadHandler, renameEntityHandler,
        deleteEntityHandler, showPinInputModalState, hok, h401]

/-- Witness for the previous theorem at a concrete 401 response. -/
theorem unauthorized_removes_pin_before_reprompt_witness :
    (deleteEntityHandler .player 7 2 ⟨false, 401, none, 0⟩ sampleState).2 =
      [.removePin 7, .showPinInput 7] :=
  (unauthorized_removes_pin_before_reprompt .player 7 7 2 "Maria"
    ⟨false, 401, none, 0⟩ sampleState rfl rfl).2.2.2.1

/-- Claim C1 counterexample: on an HTTP 412 response, the entity delete
handler (`deleteEntity`, used for players, teams and events) does not
show the Conflict message and does not refetch: it falls into the
generic error branch, showing "Errore" with the delete error label and
emitting no effects. -/
theorem deleteEntity_412_shows_generic_error :
    (deleteEntityHandler .player 7 2 ⟨false, 412, none, 0⟩ sampleState).1.infoModalTitle =
      "Errore"
    ∧ (deleteEntityHandler .player 7 2 ⟨false, 412, none, 0⟩ sampleState).1.infoModalMessage =
        "Impossibile eliminare il giocatore"
    ∧ (deleteEntityHandler .player 7 2 ⟨false, 412, none, 0⟩ sampleState).2 = [] :=
  ⟨rfl, rfl, rfl⟩

/-- Claim C1 (amended): a stale expected version aborts the Ledger write
with the stored version unchanged; on an HTTP 412 the rename handlers
(olympiad and entity) and the olympiad delete handler show the
"Conflitto" info modal and refetch, while the entity delete handler has
no 412 branch and shows a generic "Errore" modal without refetching; in
every case the attempted name/version change is not applied to the local
entity list. -/
theorem conflict_412_amended (olympiadId : Int) (newName : String) (t : EntityType)
    (selId entityId : Int) (res : Resp) (s : ClientState)
    (hok : res.ok = false) (h412 : res.status = 412)
    (stored expected : Nat) (hne : expected ≠ stored) :
    ledgerStep stored expected = stored
    ∧ ((renameOlympiadHandler olympiadId newName res s).1.infoModalTitle = "Conflitto"
      ∧ (renameOlympiadHandler olympiadId newName res s).2 = [.fetchOlympiads]
      ∧ (renameOlympiadHandler olympiadId newName res s).1.olympiads = s.olympiads
      ∧ (renameOlympiadHandler olympiadId newName res s).1.selectedOlympiad =
          s.selectedOlympiad)
    ∧ ((deleteOlympiadHandler olympiadId res s).1.infoModalTitle = "Conflitto"
      ∧ (deleteOlympiadHandler olympiadId res s).2 = [.fetchOlympiads]
      ∧ (deleteOlympiadHandler olympiadId res s).1.olympiads = s.olympiads)
    ∧ ((renameEntityHandler t selId entityId newName res s).1.infoModalTitle = "Conflitto"
      ∧ (renameEntityHandler t selId entityId newName res s).1.infoModalMessage =
          conflictLabel t
      ∧ (renameEntityHandler t selId entityId newName res s).2 = [fetchEffect t]
      ∧ getList t (renameEntityHandler t selId entityId newName res s).1 = getList t s)
    ∧ ((deleteEntityHandler t selId entityId res s).1.infoModalTitle = "Errore"
      ∧ (deleteEntityHandler t selId entityId res s).1.infoModalMessage =
          res.detail.getD (deleteErrorLabel t)
      ∧ (deleteEntityHandler t selId entityId res s).2 = []
      ∧ getList t (deleteEntityHandler t selId entityId res s).1 = getList t s) := by
  refine ⟨by simp [ledgerStep, hne], ?_, ?_, ?_, ?_⟩ <;>
    (simp [renameOlympiadHandler, deleteOlympiadHandler, renameEntityHandler,
           deleteEntityHandler, showInfoModal, hok, h412]
     try (cases t <;> rfl))

/-- Witness for the previous theorem at a concrete 412 response. -/
theorem conflict_412_amended_witness :
    (renameEntityHandler EntityType.player 7 2 "Maria" ⟨false, 412, none, 0⟩ sampleState).2 =
      [.fetchPlayers] :=
  (conflict_412_amended 7 "Maria" .player 7 2 ⟨false, 412, none, 0⟩ sampleState
    rfl rfl 3 2 (by decide)).2.2.2.1.2.2.1

/-- Claim C2 counterexample: the entity-creation request `createPlayer`
carries the PIN header but no `If-Match` expected-version precondition. -/
theorem createPlayer_has_no_ifMatch :
    (Api.createPlayer 1 "Mario" "1234").headers.lookup "If-Match" = none
    ∧ (Api.createPlayer 1 "Mario" "1234").headers.lookup "X-Olympiad-PIN" = some "1234" :=
  ⟨rfl, rfl⟩

/-- Claim C2 (amended): rename requests for all four entity kinds and
the olympiad delete request carry both the `X-Olympiad-PIN` header and
an `If-Match` header holding the quoted expected version; creation
requests (`createPlayer`, `createTeam`) carry the PIN header but no
`If-Match`; the delete path used by `deleteEntity` forwards no version
argument, so its `If-Match` header holds the literal string
`"undefined"`; on a successful rename the server's returned version is
stored in the local entity list. -/
theorem mutating_request_headers_amended (oid eid : Int) (name pin : String) (v : Int)
    (t : EntityType) (selId : Int) (res : Resp) (s : ClientState) (hok : res.ok = true) :
    ((Api.renameOlympiad oid name pin v).headers.lookup "X-Olympiad-PIN" = some pin
      ∧ (Api.renameOlympiad oid name pin v).headers.lookup "If-Match" = some (quotedVersion v))
    ∧ ((Api.deleteOlympiad oid pin v).headers.lookup "X-Olympiad-PIN" = some pin
      ∧ (Api.deleteOlympiad oid pin v).headers.lookup "If-Match" = some (quotedVersion v))
    ∧ ((renameApiFn t oid eid name pin v).headers.lookup "X-Olympiad-PIN" = some pin
      ∧ (renameApiFn t oid eid name pin v).headers.lookup "If-Match" = some (quotedVersion v))
    ∧ ((Api.createPlayer oid name pin).headers.lookup "X-Olympiad-PIN" = some pin
      ∧ (Api.createPlayer oid name pin).headers.lookup "If-Match" = none)
    ∧ ((Api.createTeam oid name pin).headers.lookup "X-Olympiad-PIN" = some pin
      ∧ (Api.createTeam oid name pin).headers.lookup "If-Match" = none)
    ∧ ((deleteApiFn t oid eid pin).headers.lookup "X-Olympiad-PIN" = some pin
      ∧ (deleteApiFn t oid eid pin).headers.lookup "If-Match" = some "\"undefined\"")
    ∧ (getList t ((renameEntityHandler t selId eid name res s).1) =
        (getList t s).map fun item =>
          if item.id = eid then { item with name := name, version := res.version }
          else item) := by
  refine ⟨⟨rfl, rfl⟩, ⟨rfl, rfl⟩, ?_, ⟨rfl, rfl⟩, ⟨rfl, rfl⟩, ?_, ?_⟩
  · cases t <;> exact ⟨rfl, rfl⟩
  · cases t <;> exact ⟨rfl, rfl⟩
  · simp [renameEntityHandler, hok, getList_closeModal, getList_setList]

/-- Witness for the previous theorem: a successful rename stores the
returned version. -/
theorem mutating_request_headers_amended_witness :
    getList EntityType.player
        ((renameEntityHandler .player 7 2 "Maria" ⟨true, 200, none, 2⟩ sampleState).1) =
      [⟨2, "Maria", 2⟩] :=
  (mutating_request_headers_amended 7 2 "Maria" "1234" 3 .player 7
    ⟨true, 200, none, 2⟩ sampleState rfl).2.2.2.2.2.2

theorem char_ofNat_digit (d : Nat) (h : d < 10) :
    (Char.ofNat (48 + d)).isDigit = true := by
  interval_cases d <;> decide

theorem natDigitsAux_all_digits (fuel n : Nat) :
    (natDigitsAux fuel n).all (·.isDigit) = true := by
  induction fuel generalizing n with
  | zero => rfl
  | succ fuel ih =>
    by_cases hn : n = 0
    · simp [natDigitsAux, hn]
    · simp only [natDigitsAux, hn, if_false, List.all_cons, ih, Bool.and_true]
      exact char_ofNat_digit _ (Nat.mod_lt _ (by norm_num))

theorem natDigitsAux_length_le (fuel : Nat) :
    ∀ n k, n < 10 ^ k → (natDigitsAux fuel n).length ≤ k := by
  induction fuel with
  | zero => intro n k _; simp [natDigitsAux]
  | succ fuel ih =>
    intro n k hk
    by_cases hn : n = 0
    · simp [natDigitsAux, hn]
    · cases k with
      | zero => omega
      | succ k =>
        simp only [natDigitsAux, hn, if_false, List.length_cons]
        have : n / 10 < 10 ^ k := by
          rw [Nat.div_lt_iff_lt_mul (by norm_num)]
          calc n < 10 ^ (k + 1) := hk
            _ = 10 ^ k * 10 := by ring
        exact Nat.succ_le_succ (ih _ _ this)

theorem natDecimalString_length_le (n : Nat) (h : n < 10000) :
    (natDecimalString n).length ≤ 4 := by
  by_cases hn : n = 0
  · subst hn; decide
  · simp only [natDecimalString, hn, if_false]
    have := natDigitsAux_length_le n n 4 (lt_of_lt_of_eq h (by norm_num))
    simpa [String.length] using this

theorem natDecimalString_all_digits (n : Nat) :
    (natDecimalString n).data.all (·.isDigit) = true := by
  by_cases hn : n = 0
  · subst hn; decide
  · simp only [natDecimalString, hn, if_false]
    have := natDigitsAux_all_digits n n
    simp only [List.all_eq_true] at this ⊢
    intro c hc
    exact this c (List.mem_reverse.mp hc)

theorem genPin_length (n : Nat) (h : n < 10000) : (genPin n).length = 4 := by
  have hl := natDecimalString_length_le n h
  simp only [genPin, padStart, String.length_append]
  have : (String.mk (List.replicate (4 - (natDecimalString n).length) '0')).length
      = 4 - (natDecimalString n).length := by
    show (List.replicate (4 - (natDecimalString n).length) '0').length = _
    simp
  omega

/-- Claim C5 counterexample: the first schema variant's pin column CHECK
(`length(pin) <= 4`) accepts the three-character pin "123", which is not
a 4-digit PIN, so that CHECK does not enforce the 4-digit length. -/
theorem pinCheckLe4_admits_nonFourDigit :
    pinCheckLe4 "123" = true ∧ isFourDigitPin "123" = false :=
  ⟨rfl, rfl⟩

/-- Claim C5 (amended): the creation form generates the PIN as the
zero-padded decimal of a number in [0, 9999], which is always 4 decimal
digits; the form rejects any submitted PIN not matching the 4-digit
pattern before building the request; the second schema variant's CHECK
(`length(pin) = 4`) enforces the 4-character length, while the first
variant's CHECK (`length(pin) <= 4`) only bounds it and admits shorter
pins. -/
theorem olympiad_pin_amended (n : Nat) (hn : n < 10000) (name pin : String)
    (hbad : isFourDigitPin pin = false) :
    isFourDigitPin (genPin n) = true
    ∧ pinCheckEq4 (genPin n) = true
    ∧ handleSubmitOlympiad name pin = (none, some "Il PIN deve essere di 4 cifre")
    ∧ (∀ p : String, pinCheckEq4 p = true → p.length = 4)
    ∧ ¬ (∀ p : String, pinCheckLe4 p = true → isFourDigitPin p = true) := by
  have hlen := genPin_length n hn
  have hdigits : (genPin n).data.all (·.isDigit) = true := by
    simp only [genPin, padStart, String.data_append, List.all_append,
               natDecimalString_all_digits n, Bool.and_true]
    simp only [List.all_eq_true]
    intro c hc
    have hc0 : c = '0' := List.eq_of_mem_replicate hc
    simp [hc0]
  refine ⟨?_, ?_, ?_, ?_, ?_⟩
  · simp [isFourDigitPin, hlen, hdigits]
  · simp [pinCheckEq4, hlen]
  · simp [handleSubmitOlympiad, hbad]
  · intro p hp; simpa [pinCheckEq4] using hp
  · intro hall
    exact absurd (hall "123" rfl) (by decide)

/-- Witness for the previous theorem: the generated PIN for draw 7 is a
4-digit PIN and the non-4-digit input "123" is rejected by the form. -/
theorem olympiad_pin_amended_witness :
    isFourDigitPin (genPin 7) = true
    ∧ handleSubmitOlympiad "Roma" "123" = (none, some "Il PIN deve essere di 4 cifre") :=
  ⟨(olympiad_pin_amended 7 (by decide) "Roma" "123" (by decide)).1,
   (olympiad_pin_amended 7 (by decide) "Roma" "123" (by decide)).2.2.1⟩

theorem assignedVersions_range' (v : Nat) (reqs : List Nat) :
    assignedVersions v reqs = List.range' (v + 1) (assignedVersions v reqs).length
    ∧ ledgerRun v reqs = v + (assignedVersions v reqs).length := by
  induction reqs generalizing v with
  | nil => simp [assignedVersions, ledgerRun]
  | cons e rest ih =>
    by_cases he : e = v
    · have hav : assignedVersions v (e :: rest) = (v + 1) :: assignedVersions (v + 1) rest := by
        simp [assignedVersions, he]
      have hlr : ledgerRun v (e :: rest) = ledgerRun (v + 1) rest := by
        simp [ledgerRun, ledgerStep, he]
      obtain ⟨h1, h2⟩ := ih (v + 1)
      refine ⟨?_, ?_⟩
      · rw [hav, List.length_cons, List.range'_succ]
        exact congrArg _ h1
      · rw [hav, hlr, List.length_cons, h2]; omega
    · have hav : assignedVersions v (e :: rest) = assignedVersions v rest := by
        simp [assignedVersions, he]
      have hlr : ledgerRun v (e :: rest) = ledgerRun v rest := by
        simp [ledgerRun, ledgerStep, he]
      obtain ⟨h1, h2⟩ := ih v
      exact ⟨by rw [hav]; exact h1, by rw [hav, hlr]; exact h2⟩

/-- Claim C7: starting from version 1 at entity creation (the schema
default), every successful Ledger write increments the stored version by
exactly 1: after any request trace the stored version equals 1 plus the
number of successful writes, and the versions assigned by the successful
writes are exactly the consecutive run 2, 3, ... — strictly increasing,
never decreasing and never repeating. -/
theorem version_counter_monotone (reqs : List Nat) :
    assignedVersions 1 reqs = List.range' 2 (assignedVersions 1 reqs).length
    ∧ ledgerRun 1 reqs = 1 + (assignedVersions 1 reqs).length
    ∧ (assignedVersions 1 reqs).Pairwise (· < ·)
    ∧ (assignedVersions 1 reqs).Nodup := by
  obtain ⟨h1, h2⟩ := assignedVersions_range' 1 reqs
  refine ⟨h1, h2, ?_, ?_⟩
  · rw [h1]; exact List.pairwise_lt_range' _ _
  · rw [h1]; exact List.nodup_range' _ _

/-! ## Round reconstruction: structure of the backward BFS -/

theorem find?_eq_head?_filter {α : Type} (p : α → Bool) (l : List α) :
    List.find? p l = (l.filter p).head? := by
  induction l with
  | nil => rfl
  | cons a t ih =>
    by_cases h : p a
    · rw [List.find?_cons_of_pos _ h, List.filter_cons_of_pos h]
      rfl
    · rw [List.find?_cons_of_neg _ h, List.filter_cons_of_neg h]
      exact ih

theorem feeders_mem {ms c : List MatchResponse} {m : MatchResponse}
    (h : m ∈ feeders ms c) :
    m ∈ ms ∧ ∃ mt ∈ c, m.next_match_id = some mt.id := by
  simp only [feeders, List.mem_flatten, List.mem_map] at h
  obtain ⟨l, ⟨mt, hmt, rfl⟩, hml⟩ := h
  obtain ⟨hms, hp⟩ := List.mem_filter.mp hml
  refine ⟨hms, mt, hmt, ?_⟩
  simpa using hp

theorem feeders_linked (ms c : List MatchResponse) :
    roundsLinked (feeders ms c) c := by
  intro m hm
  obtain ⟨-, mt, hmt, hnext⟩ := feeders_mem hm
  exact ⟨mt, hmt, hnext⟩

theorem bfsRounds_nil_of_empty (ms : List MatchResponse) (fuel : Nat) :
    bfsRounds ms fuel [] = [] := by
  cases fuel <;> simp [bfsRounds]

theorem bfsRounds_getLast? (ms : List MatchResponse) (fuel : Nat)
    (c : List MatchResponse) (hc : c ≠ []) (hf : 1 ≤ fuel) :
    (bfsRounds ms fuel c).getLast? = some c := by
  cases fuel with
  | zero => omega
  | succ f =>
    simp only [bfsRounds, hc, if_false]
    exact List.getLast?_concat _

theorem bfsRounds_chain' (ms : List MatchResponse) (fuel : Nat)
    (c : List MatchResponse) :
    List.Chain' roundsLinked (bfsRounds ms fuel c) := by
  induction fuel generalizing c with
  | zero => exact List.chain'_nil
  | succ f ih =>
    by_cases hc : c = []
    · simp [bfsRounds, hc]
    · simp only [bfsRounds, hc, if_false]
      rw [List.chain'_append]
      refine ⟨ih _, List.chain'_singleton _, ?_⟩
      intro x hx y hy
      cases hb : bfsRounds ms f (feeders ms c) with
      | nil => rw [hb] at hx; simp at hx
      | cons r rs =>
        have hffuel : 1 ≤ f := by
          by_contra hle
          have : f = 0 := by omega
          subst this
          simp [bfsRounds] at hb
        have hfe : feeders ms c ≠ [] := by
          intro hfe
          rw [hfe, bfsRounds_nil_of_empty] at hb
          exact List.noConfusion hb
        have := bfsRounds_getLast? ms f (feeders ms c) hfe hffuel
        rw [hb] at hx this
        rw [hx] at this
        have hxval : x = feeders ms c := by
          simpa using this
        have hyval : y = c := by
          have := hy
          simp only [List.head?_cons, Option.mem_def, Option.some.injEq] at this
          exact this.symm
        rw [hxval, hyval]
        exact feeders_linked ms c

/-- Claim C4: for a match list with exactly one null-link match (the
root), `organizeMatchesByRound` reconstructs rounds by backward
traversal from it: the final round is exactly the singleton root, and
every match placed in a round has its `next_match_id` equal to the id of
some match of the following round. -/
theorem organize_backward_from_root (ms : List MatchResponse) (root : MatchResponse)
    (huniq : ms.filter (fun m => m.next_match_id = none) = [root]) :
    (organizeMatchesByRound ms).getLast? = some [root]
    ∧ List.Chain' roundsLinked (organizeMatchesByRound ms) := by
  have hfind : ms.find? (fun m => m.next_match_id = none) = some root := by
    rw [find?_eq_head?_filter, huniq]; rfl
  have hroot_mem : root ∈ ms := List.mem_of_find?_eq_some hfind
  have hms : ms ≠ [] := by
    intro h; rw [h] at hroot_mem; exact List.not_mem_nil root hroot_mem
  have hlen : 1 ≤ ms.length := List.length_pos.mpr hms
  constructor
  · simp only [organizeMatchesByRound, organizeMatchesByRoundFuel, hms, if_false, hfind]
    exact bfsRounds_getLast? ms ms.length [root] (by simp) hlen
  · simp only [organizeMatchesByRound, organizeMatchesByRoundFuel, hms, if_false, hfind]
    exact bfsRounds_chain' ms ms.length [root]

/-- Witness for the previous theorem: a three-match bracket (two
semifinal feeders and a final) whose final round is the singleton root. -/
theorem organize_backward_from_root_witness :
    (organizeMatchesByRound
        [⟨1, .pending, [], some 3⟩, ⟨2, .pending, [], some 3⟩,
         ⟨3, .pending, [], none⟩]).getLast? =
      some [⟨3, .pending, [], none⟩] :=
  (organize_backward_from_root _ _ (by decide)).1

/-! ## Single-elimination bracket invariants -/

theorem bracketSize_ge (n : Nat) : n ≤ bracketSize n :=
  Nat.le_pow_clog (by norm_num) n

theorem bracketSize_min (n m : Nat) (h : n ≤ 2 ^ m) : bracketSize n ≤ 2 ^ m :=
  Nat.pow_le_pow_right (by norm_num) ((Nat.le_pow_iff_clog_le (by norm_num)).mp h)

theorem seMatches_mem_iff {n : Nat} {m : BracketMatch} :
    m ∈ seMatches n ↔ ∃ i, 1 ≤ i ∧ i ≤ bracketSize n - 1 ∧
      m = ⟨i, if i = 1 then none else some (i / 2)⟩ := by
  simp only [seMatches, List.mem_map, List.mem_range'_1]
  constructor
  · rintro ⟨i, ⟨h1, h2⟩, rfl⟩
    exact ⟨i, h1, by omega, rfl⟩
  · rintro ⟨i, h1, h2, rfl⟩
    refine ⟨i, ⟨h1, ?_⟩, rfl⟩
    have := bracketSize_ge n
    omega

theorem seMatches_countP_tail :
    ∀ (l s : Nat), 2 ≤ s →
      ((List.range' s l).map fun i =>
          ({ id := i, next_match_id := if i = 1 then none else some (i / 2) } :
            BracketMatch)).countP
        (fun m => m.next_match_id = none) = 0 := by
  intro l
  induction l with
  | zero => intro s _; rfl
  | succ l ih =>
    intro s hs
    rw [List.range'_succ, List.map_cons, List.countP_cons]
    have hs1 : s ≠ 1 := by omega
    simp only [hs1, if_false]
    have := ih (s + 1) (by omega)
    simpa using this

theorem breaches_id_le {l : List BracketMatch}
    (hdec : ∀ x ∈ l, ∀ j, x.next_match_id = some j → j < x.id)
    {a b : BracketMatch} (hr : BReaches l a b) (ha : a ∈ l) : b.id ≤ a.id := by
  induction hr with
  | refl => exact le_rfl
  | step hnext hmem _ ih =>
    have hlt := hdec _ ha _ hnext
    have hb := ih hmem
    omega

theorem seMatches_link_lt (n : Nat) :
    ∀ m ∈ seMatches n, ∀ j, m.next_match_id = some j → j < m.id := by
  intro m hm j hj
  obtain ⟨i, h1, h2, rfl⟩ := seMatches_mem_iff.mp hm
  by_cases hi : i = 1
  · simp [hi] at hj
  · simp only [hi, if_false, Option.some.injEq] at hj
    subst hj
    exact Nat.div_lt_self (by omega) (by omega)

theorem seMatches_reach (n : Nat) :
    ∀ m ∈ seMatches n, BReaches (seMatches n) m ⟨1, none⟩ := by
  have aux : ∀ i, 1 ≤ i → i ≤ bracketSize n - 1 →
      BReaches (seMatches n)
        ⟨i, if i = 1 then none else some (i / 2)⟩ ⟨1, none⟩ := by
    intro i
    induction i using Nat.strong_induction_on with
    | _ i ih =>
      intro h1 h2
      by_cases hi : i = 1
      · subst hi
        exact (by simp : (⟨1, if 1 = 1 then none else some (1 / 2)⟩ : BracketMatch)
            = ⟨1, none⟩) ▸ BReaches.refl _
      · have hge2 : 2 ≤ i := by omega
        have hhalf1 : 1 ≤ i / 2 := Nat.one_le_div_iff (by omega) |>.mpr (by omega)
        have hhalflt : i / 2 < i := Nat.div_lt_self (by omega) (by omega)
        refine @BReaches.step (seMatches n) ⟨i, if i = 1 then none else some (i / 2)⟩
          ⟨i / 2, if i / 2 = 1 then none else some (i / 2 / 2)⟩ ⟨1, none⟩
          ?_ ?_ (ih (i / 2) hhalflt hhalf1 (by omega))
        · simp [hi]
        · exact seMatches_mem_iff.mpr ⟨i / 2, hhalf1, by omega, rfl⟩
  intro m hm
  obtain ⟨i, h1, h2, rfl⟩ := seMatches_mem_iff.mp hm
  exact aux i h1 h2

/-- Claim C6: for every participant count N ≥ 2 the modelled
single-elimination bracket has exactly `bracketSize N − 1` matches,
where `bracketSize N` is the smallest power of two ≥ N; exactly one
match carries `next_match_id = null`; and every match reaches that root
by following `next_match_id` links with no cycles (every link strictly
decreases the match id, so no link closes a cycle). -/
theorem single_elimination_invariants (n : Nat) (h : 2 ≤ n) :
    (n ≤ bracketSize n ∧ ∀ m, n ≤ 2 ^ m → bracketSize n ≤ 2 ^ m)
    ∧ (seMatches n).length = bracketSize n - 1
    ∧ (seMatches n).countP (fun m => m.next_match_id = none) = 1
    ∧ (∀ m ∈ seMatches n, BReaches (seMatches n) m ⟨1, none⟩)
    ∧ (∀ m ∈ seMatches n, ∀ m' ∈ seMatches n,
        m.next_match_id = some m'.id → ¬ BReaches (seMatches n) m' m) := by
  have hbs2 : 2 ≤ bracketSize n := le_trans h (bracketSize_ge n)
  refine ⟨⟨bracketSize_ge n, fun m => bracketSize_min n m⟩, ?_, ?_, seMatches_reach n, ?_⟩
  · simp [seMatches]
  · have hsplit : bracketSize n - 1 = (bracketSize n - 2) + 1 := by omega
    rw [seMatches, hsplit, List.range'_succ, List.map_cons, List.countP_cons]
    have htail := seMatches_countP_tail (bracketSize n - 2) 2 (le_refl 2)
    simp only [htail]
    norm_num
  · intro m hm m' hm' hlink hcyc
    have hlt := seMatches_link_lt n m hm m'.id hlink
    have hle := breaches_id_le (seMatches_link_lt n) hcyc hm'
    omega

/-- Witness for the previous theorem at N = 5 participants. -/
theorem single_elimination_invariants_witness :
    (seMatches 5).length = bracketSize 5 - 1
    ∧ (seMatches 5).countP (fun m => m.next_match_id = none) = 1 :=
  ⟨(single_elimination_invariants 5 (by decide)).2.1,
   (single_elimination_invariants 5 (by decide)).2.2.1⟩

/-! ## Termination and round disjointness of the backward BFS -/

theorem headI_mem {α : Type} [Inhabited α] {l : List α} (h : l ≠ []) : l.headI ∈ l := by
  cases l with
  | nil => exact absurd rfl h
  | cons a t => exact List.mem_cons_self a t

theorem id_inj {ms : List MatchResponse} (H : (ms.map (·.id)).Nodup)
    {a b : MatchResponse} (ha : a ∈ ms) (hb : b ∈ ms) (hid : a.id = b.id) : a = b :=
  (List.nodup_map_iff_inj_on (List.Nodup.of_map _ H)).mp H a ha b hb hid

theorem roundSeq_subset (ms : List MatchResponse) {root : MatchResponse}
    (hroot : root ∈ ms) : ∀ k, ∀ m ∈ roundSeq ms root k, m ∈ ms := by
  intro k
  induction k with
  | zero =>
    intro m hm
    have : m = root := by simpa [roundSeq] using hm
    exact this ▸ hroot
  | succ k _ =>
    intro m hm
    exact (feeders_mem hm).1

theorem nextIter_add (ms : List MatchResponse) (a b : Nat) (m : MatchResponse) :
    nextIter ms (a + b) m =
      match nextIter ms a m with
      | none => none
      | some m' => nextIter ms b m' := by
  induction a generalizing m with
  | zero => simp [nextIter, Nat.zero_add]
  | succ a ih =>
    have harith : a + 1 + b = (a + b) + 1 := by omega
    rw [harith]
    cases hnm : nextMatch ms m with
    | none => simp [nextIter, hnm]
    | some m1 => simp [nextIter, hnm, ih m1]

theorem nextIter_roundSeq {ms : List MatchResponse} {root : MatchResponse}
    (H : (ms.map (·.id)).Nodup) (hroot : root ∈ ms)
    (hrnone : root.next_match_id = none) :
    ∀ k, ∀ m ∈ roundSeq ms root k,
      nextIter ms k m = some root ∧ nextIter ms (k + 1) m = none := by
  intro k
  induction k with
  | zero =>
    intro m hm
    have hmr : m = root := by simpa [roundSeq] using hm
    subst hmr
    have hnm : nextMatch ms m = none := by
      refine List.find?_eq_none.mpr ?_
      intro x _
      simp [hrnone]
    exact ⟨rfl, by simp [nextIter, hnm]⟩
  | succ k ih =>
    intro m hm
    obtain ⟨hmms, mt, hmt, hnext⟩ := feeders_mem hm
    have hmtms : mt ∈ ms := roundSeq_subset ms hroot k mt hmt
    have hfind : nextMatch ms m = some mt := by
      cases hf : nextMatch ms m with
      | none =>
        exact absurd (List.find?_eq_none.mp hf mt hmtms (by simp [hnext]))
          (fun h => h)
      | some y =>
        have hy : y ∈ ms := List.mem_of_find?_eq_some hf
        have hpy := List.find?_some hf
        simp only [decide_eq_true_eq] at hpy
        have hid : y.id = mt.id := by
          rw [hnext] at hpy
          exact (Option.some.injEq _ _ ▸ hpy).symm ▸ rfl
        exact congrArg some (id_inj H hy hmtms hid)
    obtain ⟨ih1, ih2⟩ := ih mt hmt
    have unf : ∀ (n : Nat) (x : MatchResponse), nextIter ms (n + 1) x =
        (match nextMatch ms x with
         | none => none
         | some m1 => nextIter ms n m1) := fun n x => rfl
    constructor
    · show nextIter ms (k + 1) m = some root
      rw [unf k m, hfind]
      exact ih1
    · show nextIter ms (k + 1 + 1) m = none
      rw [unf (k + 1) m, hfind]
      exact ih2

theorem roundSeq_disjoint {ms : List MatchResponse} {root : MatchResponse}
    (H : (ms.map (·.id)).Nodup) (hroot : root ∈ ms)
    (hrnone : root.next_match_id = none)
    {i j : Nat} (hij : i ≠ j) {m : MatchResponse}
    (hi : m ∈ roundSeq ms root i) (hj : m ∈ roundSeq ms root j) : False := by
  rcases Nat.lt_or_ge i j with hlt | hge
  · obtain ⟨-, hnone⟩ := nextIter_roundSeq H hroot hrnone i m hi
    obtain ⟨hsome, -⟩ := nextIter_roundSeq H hroot hrnone j m hj
    have harith : j = (i + 1) + (j - i - 1) := by omega
    rw [harith, nextIter_add, hnone] at hsome
    exact Option.noConfusion hsome
  · have hlt : j < i := by omega
    obtain ⟨-, hnone⟩ := nextIter_roundSeq H hroot hrnone j m hj
    obtain ⟨hsome, -⟩ := nextIter_roundSeq H hroot hrnone i m hi
    have harith : i = (j + 1) + (i - j - 1) := by omega
    rw [harith, nextIter_add, hnone] at hsome
    exact Option.noConfusion hsome

theorem roundSeq_empties {ms : List MatchResponse} {root : MatchResponse}
    (H : (ms.map (·.id)).Nodup) (hroot : root ∈ ms)
    (hrnone : root.next_match_id = none) :
    ∃ n, n ≤ ms.length ∧ roundSeq ms root n = [] := by
  by_contra hcon
  push_neg at hcon
  have hne : ∀ n : Fin (ms.length + 1), roundSeq ms root n.val ≠ [] :=
    fun n => hcon n.val (by omega)
  have hmem : ∀ n : Fin (ms.length + 1),
      (roundSeq ms root n.val).headI ∈ roundSeq ms root n.val :=
    fun n => headI_mem (hne n)
  have hmaps : ∀ n ∈ (Finset.univ : Finset (Fin (ms.length + 1))),
      (roundSeq ms root n.val).headI ∈ ms.toFinset :=
    fun n _ => List.mem_toFinset.mpr (roundSeq_subset ms hroot n.val _ (hmem n))
  have hinj : Set.InjOn (fun n : Fin (ms.length + 1) => (roundSeq ms root n.val).headI)
      (Finset.univ : Finset (Fin (ms.length + 1))) := by
    intro a _ b _ hab
    by_contra hne'
    have hvv : a.val ≠ b.val := fun h => hne' (Fin.ext h)
    have hab' : (roundSeq ms root a.val).headI = (roundSeq ms root b.val).headI := hab
    have hbm : (roundSeq ms root a.val).headI ∈ roundSeq ms root b.val := by
      rw [hab']; exact hmem b
    exact roundSeq_disjoint H hroot hrnone hvv (hmem a) hbm
  have hcard := Finset.card_le_card_of_injOn _ hmaps hinj
  rw [Finset.card_univ, Fintype.card_fin] at hcard
  have := List.toFinset_card_le ms
  omega

theorem bfsRounds_stable (ms : List MatchResponse) (root : MatchResponse) :
    ∀ j k fuel, roundSeq ms root (k + j) = [] → j ≤ fuel →
      bfsRounds ms fuel (roundSeq ms root k) = bfsRounds ms j (roundSeq ms root k) := by
  intro j
  induction j with
  | zero =>
    intro k fuel h0 _
    rw [Nat.add_zero] at h0
    rw [h0, bfsRounds_nil_of_empty, bfsRounds_nil_of_empty]
  | succ j ih =>
    intro k fuel hkj hfuel
    by_cases hc : roundSeq ms root k = []
    · rw [hc, bfsRounds_nil_of_empty, bfsRounds_nil_of_empty]
    · cases fuel with
      | zero => omega
      | succ f =>
        simp only [bfsRounds, hc, if_false]
        rw [show feeders ms (roundSeq ms root k) = roundSeq ms root (k + 1) from rfl]
        have harith : k + 1 + j = k + (j + 1) := by omega
        rw [ih (k + 1) f (by rw [harith]; exact hkj) (by omega)]

theorem bfsRounds_elem_roundSeq (ms : List MatchResponse) (root : MatchResponse) :
    ∀ fuel k r, r ∈ bfsRounds ms fuel (roundSeq ms root k) →
      ∃ j, k ≤ j ∧ r = roundSeq ms root j := by
  intro fuel
  induction fuel with
  | zero => intro k r hr; simp [bfsRounds] at hr
  | succ f ih =>
    intro k r hr
    by_cases hc : roundSeq ms root k = []
    · simp [bfsRounds, hc] at hr
    · simp only [bfsRounds, hc, if_false] at hr
      rw [show feeders ms (roundSeq ms root k) = roundSeq ms root (k + 1) from rfl] at hr
      rcases List.mem_append.mp hr with hleft | hright
      · obtain ⟨j, hj, rfl⟩ := ih (k + 1) r hleft
        exact ⟨j, by omega, rfl⟩
      · have : r = roundSeq ms root k := by simpa using hright
        exact ⟨k, le_rfl, this⟩

theorem bfsRounds_pairwise_disjoint {ms : List MatchResponse} {root : MatchResponse}
    (H : (ms.map (·.id)).Nodup) (hroot : root ∈ ms)
    (hrnone : root.next_match_id = none) :
    ∀ fuel k, (bfsRounds ms fuel (roundSeq ms root k)).Pairwise
      (fun r1 r2 => ∀ m ∈ r1, m ∉ r2) := by
  intro fuel
  induction fuel with
  | zero => intro k; simp [bfsRounds]
  | succ f ih =>
    intro k
    by_cases hc : roundSeq ms root k = []
    · simp [bfsRounds, hc]
    · simp only [bfsRounds, hc, if_false]
      rw [show feeders ms (roundSeq ms root k) = roundSeq ms root (k + 1) from rfl]
      rw [List.pairwise_append]
      refine ⟨ih (k + 1), List.pairwise_singleton _ _, ?_⟩
      intro r1 hr1 r2 hr2 m hm1 hm2
      obtain ⟨j, hj, rfl⟩ := bfsRounds_elem_roundSeq ms root f (k + 1) r1 hr1
      have hr2k : r2 = roundSeq ms root k := by simpa using hr2
      subst hr2k
      exact roundSeq_disjoint H hroot hrnone (by omega) hm1 hm2

theorem roundSeq_reaches (ms : List MatchResponse) {root : MatchResponse}
    (hroot : root ∈ ms) :
    ∀ k, ∀ m ∈ roundSeq ms root k, Reaches ms m root := by
  intro k
  induction k with
  | zero =>
    intro m hm
    have hmr : m = root := by simpa [roundSeq] using hm
    subst hmr
    exact Reaches.refl m
  | succ k ih =>
    intro m hm
    obtain ⟨-, mt, hmt, hnext⟩ := feeders_mem hm
    exact Reaches.step hnext (roundSeq_subset ms hroot k mt hmt) (ih mt hmt)

/-- Claim C10 counterexample: on a finite match list with a duplicated
id, the backward-BFS `while` loop of `organizeMatchesByRound` never
terminates: the current round never becomes empty, and the output keeps
growing with the allotted number of iterations instead of stabilizing. -/
theorem organize_duplicate_ids_diverges :
    (∀ k, roundSeq loopMatches ⟨1, .pending, [], none⟩ k ≠ [])
    ∧ (∀ fuel, (organizeMatchesByRoundFuel fuel loopMatches).length = fuel) := by
  have haux : ∀ k, roundSeq loopMatches ⟨1, .pending, [], none⟩ (k + 1) =
      [⟨1, .pending, [], some 1⟩] := by
    intro k
    induction k with
    | zero => rfl
    | succ k ih =>
      show feeders loopMatches (roundSeq loopMatches ⟨1, .pending, [], none⟩ (k + 1)) = _
      rw [ih]
      rfl
  have hne : ∀ k, roundSeq loopMatches ⟨1, .pending, [], none⟩ k ≠ [] := by
    intro k
    cases k with
    | zero => simp [roundSeq]
    | succ k => rw [haux k]; simp
  refine ⟨hne, ?_⟩
  have hlen : ∀ fuel k,
      (bfsRounds loopMatches fuel (roundSeq loopMatches ⟨1, .pending, [], none⟩ k)).length
        = fuel := by
    intro fuel
    induction fuel with
    | zero => intro k; rfl
    | succ f ih =>
      intro k
      simp only [bfsRounds, hne k, if_false]
      rw [show feeders loopMatches (roundSeq loopMatches ⟨1, .pending, [], none⟩ k)
            = roundSeq loopMatches ⟨1, .pending, [], none⟩ (k + 1) from rfl]
      simp [ih (k + 1)]
  intro fuel
  have h0 : organizeMatchesByRoundFuel fuel loopMatches =
      bfsRounds loopMatches fuel [⟨1, .pending, [], none⟩] := rfl
  rw [h0]
  exact hlen fuel 0

/-- Claim C10 (amended): for every finite match list whose match ids are
pairwise distinct, `organizeMatchesByRound` terminates — the loop needs
at most `length` iterations, after which more fuel never changes the
output; it places each match in at most one round (the rounds are
pairwise disjoint); it returns the whole list as a single round when no
match has `next_match_id = null`; and it silently omits every match from
which the null-link root is not reachable by following `next_match_id`
links. -/
theorem organize_distinct_ids_amended (ms : List MatchResponse)
    (H : (ms.map (·.id)).Nodup) :
    (∀ fuel, ms.length ≤ fuel →
        organizeMatchesByRoundFuel fuel ms = organizeMatchesByRound ms)
    ∧ (organizeMatchesByRound ms).Pairwise (fun r1 r2 => ∀ m ∈ r1, m ∉ r2)
    ∧ (ms ≠ [] → ms.find? (fun m => m.next_match_id = none) = none →
        organizeMatchesByRound ms = [ms])
    ∧ (∀ root, ms.find? (fun m => m.next_match_id = none) = some root →
        ∀ m ∈ ms, ¬ Reaches ms m root → ∀ r ∈ organizeMatchesByRound ms, m ∉ r) := by
  refine ⟨?_, ?_, ?_, ?_⟩
  · intro fuel hfuel
    by_cases hms : ms = []
    · simp [organizeMatchesByRoundFuel, organizeMatchesByRound, hms]
    · cases hfind : ms.find? (fun m => m.next_match_id = none) with
      | none =>
        simp [organizeMatchesByRoundFuel, organizeMatchesByRound, hms, hfind]
      | some root =>
        have hroot : root ∈ ms := List.mem_of_find?_eq_some hfind
        have hrnone : root.next_match_id = none := by
          have := List.find?_some hfind
          simpa using this
        obtain ⟨n, hn, hempty⟩ := roundSeq_empties H hroot hrnone
        simp only [organizeMatchesByRoundFuel, organizeMatchesByRound, hms, if_false, hfind]
        rw [show ([root] : List MatchResponse) = roundSeq ms root 0 from rfl]
        rw [bfsRounds_stable ms root n 0 fuel (by simpa using hempty) (by omega),
            bfsRounds_stable ms root n 0 ms.length (by simpa using hempty) hn]
  · by_cases hms : ms = []
    · simp [organizeMatchesByRound, organizeMatchesByRoundFuel, hms]
    · cases hfind : ms.find? (fun m => m.next_match_id = none) with
      | none =>
        simp [organizeMatchesByRound, organizeMatchesByRoundFuel, hms, hfind]
      | some root =>
        have hroot : root ∈ ms := List.mem_of_find?_eq_some hfind
        have hrnone : root.next_match_id = none := by
          have := List.find?_some hfind
          simpa using this
        simp only [organizeMatchesByRound, organizeMatchesByRoundFuel, hms, if_false, hfind]
        rw [show ([root] : List MatchResponse) = roundSeq ms root 0 from rfl]
        exact bfsRounds_pairwise_disjoint H hroot hrnone ms.length 0
  · intro hms hfind
    simp [organizeMatchesByRound, organizeMatchesByRoundFuel, hms, hfind]
  · intro root hfind m hm hnoreach r hr hmr
    have hroot : root ∈ ms := List.mem_of_find?_eq_some hfind
    have hms : ms ≠ [] := by
      intro h; rw [h] at hroot; exact List.not_mem_nil root hroot
    simp only [organizeMatchesByRound, organizeMatchesByRoundFuel, hms, if_false,
               hfind] at hr
    rw [show ([root] : List MatchResponse) = roundSeq ms root 0 from rfl] at hr
    obtain ⟨j, -, rfl⟩ := bfsRounds_elem_roundSeq ms root ms.length 0 r hr
    exact hnoreach (roundSeq_reaches ms hroot j m hmr)

/-- Witness for the previous theorem: a three-match bracket with an
extra unreachable match; more fuel does not change the output and the
rounds are disjoint. -/
theorem organize_distinct_ids_amended_witness :
    organizeMatchesByRoundFuel 10
        [⟨1, .pending, [], some 3⟩, ⟨2, .pending, [], some 3⟩,
         ⟨3, .pending, [], none⟩, ⟨4, .pending, [], some 9⟩] =
      organizeMatchesByRound
        [⟨1, .pending, [], some 3⟩, ⟨2, .pending, [], some 3⟩,
         ⟨3, .pending, [], none⟩, ⟨4, .pending, [], some 9⟩] :=
  (organize_distinct_ids_amended _ (by decide)).1 10 (by decide)

end Ennio
